import Mathlib

/-!
Verification of the sqlkit audit middleware (ccmonky/sqlkit).

A shallow embedding of the Go sources: the verdict classifier
(`rewrite.go`: `Audit.DetectAlarmType`/`detectAlarmType`), the audit
pre-phase (`Audit.before`) with its verdict cache, the async EXPLAIN
worker (`Audit.auditAsync`), the whitelist (`Audit.ShouldAudit`,
`DefaultShouldAudit`, `Audit.Provision`), the driver shim capability
dispatch (`Driver.Open`), and the shadow-table rewrite cache.

Modelling conventions:
  - Go machine integers (`int`, `int64`) are `Int`; timestamps and
    durations are `Int` nanoseconds; no arithmetic here can overflow in
    any scenario the claims mention.
  - `sync.Map` values are association lists with first-match lookup;
    map iteration order (Go leaves it unspecified) is the list order.
  - Strings are compared character-wise; Go indexes bytes, which agrees
    with characters on the ASCII statements the spec discusses, and
    case folding is modelled with `Char.toLower` (ASCII folding).
  - driver argument values (`[]interface{}`) are abstracted as strings;
    no claim inspects an argument value.
-/

namespace Sqlkit

/-- AlarmType from rewrite.go: Normal = 0, Alarm = 1, Banned = 2. -/
inductive AlarmType where
  | Normal
  | Alarm
  | Banned
deriving DecidableEq

/-- Numeric value of an AlarmType, as in the Go constant block
(`Normal AlarmType = iota; Alarm; Banned`). Go compares alarm types
with `>` on this value. -/
def AlarmType.toNat : AlarmType → Nat
  | .Normal => 0
  | .Alarm => 1
  | .Banned => 2

/-- ExplainRow from mysql/mysql.go: one positional row of
`EXPLAIN <query>` output; pointer-typed columns are `Option`.
`filtered` (a `*float32` never read by the classifier) is abstracted
as an `Option Int` of its bit pattern stand-in so the structure stays
decidably comparable; no claim inspects it. -/
structure ExplainRow where
  id : Int
  selectType : String
  table : Option String
  partitions : Option String
  type : Option String
  possibleKeys : Option String
  key : Option String
  keyLen : Option Int
  ref : Option String
  rows : Option Int
  filtered : Option Int
  extra : Option String
deriving DecidableEq

/-- Audit configuration after `Provision` filled the defaults
(rewrite.go `Audit` struct): `AlarmThreshold` dereferenced,
`BannedThreshold`, the atomic `SeenSqlLogLevel`, the configured
whitelist slice, `SqlCacheDuration` in nanoseconds (`none` = cache
forever), the `explainExtraAlarmSubstrs` trigger set as a list in
iteration order, and `ShouldAuditFunc`. -/
structure Audit where
  alarmThreshold : Int
  bannedThreshold : Int
  seenSqlLogLevel : Int
  whitelistCfg : List String
  sqlCacheDuration : Option Int
  explainExtraAlarmSubstrs : List String
  shouldAuditFunc : String → Bool

/-- Go `strings.Contains(s, sub)`: some index of `s` starts with `sub`. -/
def strContains (s sub : String) : Bool :=
  (List.range (s.data.length + 1)).any (fun i => sub.data.isPrefixOf (s.data.drop i))

/-- Body of the trigger loop in `Audit.detectAlarmType` (rewrite.go):
on a substring match the reason is overwritten with
`"explain:extra:" ++ ss` and the alarm type is re-derived from the
thresholds, keeping the previous alarm type when neither threshold is
exceeded. -/
def extraStep (a : Audit) (rows : Int) (x : String) (acc : AlarmType × String)
    (ss : String) : AlarmType × String :=
  if strContains x ss then
    (if rows > a.bannedThreshold then AlarmType.Banned
     else if rows > a.alarmThreshold then AlarmType.Alarm
     else acc.1,
     "explain:extra:" ++ ss)
  else acc

/-- rewrite.go `Audit.detectAlarmType`: classify one EXPLAIN row.
Rows with a nil table or nil type are skipped; otherwise the `type`
column is tested against ALL/index with the row-count thresholds, and
while the verdict is still Normal the `extra` column is scanned for
the configured trigger substrings. -/
def Audit.detectAlarmType (a : Audit) (er : ExplainRow) : AlarmType × String :=
  match er.table, er.type with
  | none, _ => (AlarmType.Normal, "")
  | some _, none => (AlarmType.Normal, "")
  | some _, some t =>
    let rows : Int := match er.rows with | some r => r | none => 0
    let tr : AlarmType × String :=
      if t = "ALL" ∨ t = "index" then
        if rows > a.bannedThreshold then (AlarmType.Banned, "explain:type:" ++ t)
        else if rows > a.alarmThreshold then (AlarmType.Alarm, "explain:type:" ++ t)
        else (AlarmType.Normal, "explain:type:" ++ t)
      else (AlarmType.Normal, "")
    if tr.1 = AlarmType.Normal then
      match er.extra with
      | some x => a.explainExtraAlarmSubstrs.foldl (extraStep a rows x) tr
      | none => tr
    else tr

/-- Loop body of `Audit.DetectAlarmType` (rewrite.go):
`if at > alarmType { alarmType = at; reason = cause }`. -/
def Audit.detectFoldStep (a : Audit) (acc : AlarmType × String) (er : ExplainRow) :
    AlarmType × String :=
  let res := a.detectAlarmType er
  if acc.1.toNat < res.1.toNat then res else acc

/-- rewrite.go `Audit.DetectAlarmType`: fold the per-row classifier
over the plan, keeping the strictly larger alarm type and its reason. -/
def Audit.DetectAlarmType (a : Audit) (ers : List ExplainRow) : AlarmType × String :=
  ers.foldl a.detectFoldStep (AlarmType.Normal, "")

/-- Maximum of two alarm types in the `normal < alarm < banned` order. -/
def alarmMax (x y : AlarmType) : AlarmType :=
  if x.toNat < y.toNat then y else x

/-- Stated from the spec for claim C1: the maximum of the per-row
verdicts in the `normal < alarm < banned` ordering. -/
def maxRowVerdict (a : Audit) (ers : List ExplainRow) : AlarmType :=
  (ers.map (fun er => (a.detectAlarmType er).1)).foldl alarmMax AlarmType.Normal

/-- Stated from the spec for claim C1: the reason of the row that set
the maximum (the first row attaining it, since a strictly larger
verdict is required to move the maximum), or `""` when every row is
normal. -/
def reasonOfMaxRow (a : Audit) (ers : List ExplainRow) : String :=
  if maxRowVerdict a ers = AlarmType.Normal then ""
  else
    match ers.find? (fun er => decide ((a.detectAlarmType er).1 = maxRowVerdict a ers)) with
    | some er => (a.detectAlarmType er).2
    | none => ""

/-- Error values of the ccmonky/errors package as rewrite.go uses
them: `errors.New`, `errors.WithError` (attach a meta error such as
`errors.InvalidArgument`), and `errors.WithMessage`. -/
inductive GoErr where
  | newErr (msg : String)
  | withError (base : GoErr) (meta : GoErr)
  | withMessage (base : GoErr) (msg : String)
deriving DecidableEq

/-- The `errors.InvalidArgument` meta error that classifies an error
as an invalid-argument kind. -/
def InvalidArgument : GoErr := GoErr.newErr "invalid argument"

/-- rewrite.go: `ErrBanned = errors.WithError(errors.New("sql is banned"), errors.InvalidArgument)`. -/
def ErrBanned : GoErr := GoErr.withError (GoErr.newErr "sql is banned") InvalidArgument

/-- rewrite.go: `ErrAlarm = errors.New("sql is alarmed")`; surfaced only in logs. -/
def ErrAlarm : GoErr := GoErr.newErr "sql is alarmed"

/-- Go `errors.Is(e, target)`: the target is the error itself or is
reachable through the wrapped base or attached meta error. -/
def goErrIs : GoErr → GoErr → Bool
  | e@(GoErr.newErr _), target => e = target
  | e@(GoErr.withError base meta), target =>
      e = target || goErrIs base target || goErrIs meta target
  | e@(GoErr.withMessage base _), target =>
      e = target || goErrIs base target

/-- Sql from rewrite.go: one verdict-cache record. -/
structure Sql where
  query : String
  args : List String
  explain : List ExplainRow
  alarmType : AlarmType
  reason : String
  createdAt : Int
deriving DecidableEq

/-- rewrite.go: `const temporaryReason = "__temporary"`. -/
def temporaryReason : String := "__temporary"

/-- The placeholder record `before` inserts on first sight:
`&Sql{Query: query, Args: args, Reason: temporaryReason, CreatedAt: Now()}`;
its alarm type is the Go zero value `Normal`. -/
def tempSql (q : String) (args : List String) (now : Int) : Sql :=
  { query := q, args := args, explain := [], alarmType := AlarmType.Normal,
    reason := temporaryReason, createdAt := now }

/-- Operation `sync.Map.Load` on an association list. -/
def mapLoad {α : Type} : List (String × α) → String → Option α
  | [], _ => none
  | (k, v) :: rest, q => if k = q then some v else mapLoad rest q

/-- Operation `sync.Map.Delete` on an association list. -/
def mapDelete {α : Type} (m : List (String × α)) (k : String) : List (String × α) :=
  m.filter (fun kv => kv.1 ≠ k)

/-- Operation `sync.Map.Store` on an association list. -/
def mapStore {α : Type} (m : List (String × α)) (k : String) (v : α) : List (String × α) :=
  (k, v) :: mapDelete m k

/-- The characters of Go `unicode.IsSpace` (the Unicode White_Space
property), used by `strings.TrimSpace`. -/
def goSpaceChars : List Char :=
  ['\t', '\n', '\u000B', '\u000C', '\r', ' ', '\u0085', '\u00A0',
   '\u1680', '\u2000', '\u2001', '\u2002', '\u2003', '\u2004', '\u2005',
   '\u2006', '\u2007', '\u2008', '\u2009', '\u200A', '\u2028', '\u2029',
   '\u202F', '\u205F', '\u3000']

/-- Whitespace test of Go `unicode.IsSpace`. -/
def goIsSpace (c : Char) : Bool :=
  decide (c ∈ goSpaceChars)

/-- Leading-whitespace strip on the character list. -/
def goTrimLeftL (l : List Char) : List Char := l.dropWhile goIsSpace

/-- Trailing-whitespace strip on the character list. -/
def goTrimRightL (l : List Char) : List Char := (l.reverse.dropWhile goIsSpace).reverse

/-- Go `strings.TrimSpace`: strip whitespace from both ends. -/
def goTrimSpaceL (l : List Char) : List Char := goTrimRightL (goTrimLeftL l)

/-- Go `strings.EqualFold` restricted to ASCII folding: the two
character lists agree up to `Char.toLower`. -/
def eqFoldL (a b : List Char) : Bool :=
  decide (a.map Char.toLower = b.map Char.toLower)

/-- rewrite.go `DefaultShouldAudit`: trim the query, require at least
6 characters, and test the first 6 case-insensitively against the
four DML keywords. -/
def DefaultShouldAudit (query : String) : Bool :=
  let q := goTrimSpaceL query.data
  if q.length < 6 then false
  else
    let p := q.take 6
    eqFoldL p "select".data || eqFoldL p "insert".data ||
    eqFoldL p "update".data || eqFoldL p "delete".data

/-- rewrite.go `Audit.ShouldAudit`: whitelist membership wins, then
the injected predicate decides. The whitelist `sync.Map` is passed as
the list `wl` of its keys. -/
def Audit.ShouldAudit (a : Audit) (wl : List String) (q : String) : Bool :=
  if q ∈ wl then false else a.shouldAuditFunc q

/-- Nanoseconds in a second (`time.Second`). -/
def nanosPerSecond : Int := 1000000000

/-- Staleness test from `Audit.before`:
`audit.SqlCacheDuration != nil && time.Since(s.CreatedAt) > audit.SqlCacheDuration.Duration+jitter(30)`,
where the jitter draw `rand.Intn(30)` is passed in as `j` whole
seconds. -/
def Audit.isStale (a : Audit) (s : Sql) (now j : Int) : Bool :=
  match a.sqlCacheDuration with
  | some d => decide (now - s.createdAt > d + j * nanosPerSecond)
  | none => false

/-- Result of the pre-phase `Audit.before`: the verdict cache after
the call, the returned error, whether this caller spawned the async
EXPLAIN task (`LoadOrStore` reported the value as newly stored), and
whether a start timestamp was attached to the context. -/
structure BeforeResult where
  sqls : List (String × Sql)
  err : Option GoErr
  spawned : Bool
  ctxStart : Bool
deriving DecidableEq

/-- rewrite.go `Audit.before`: skip non-audited queries; on a cache
hit either expire the stale record or act on its verdict (banned →
error, alarm → pass with timestamp, normal → pass, with timestamp only
when the seen-sql log level allows it); on a miss put-if-absent the
temporary record and, iff this call inserted it, spawn the async
EXPLAIN. -/
def Audit.before (a : Audit) (sqls : List (String × Sql)) (wl : List String)
    (now j : Int) (q : String) (args : List String) : BeforeResult :=
  if a.ShouldAudit wl q = false then
    { sqls := sqls, err := none, spawned := false, ctxStart := false }
  else
    match mapLoad sqls q with
    | some s =>
      if a.isStale s now j then
        { sqls := mapStore (mapDelete sqls q) q (tempSql q args now),
          err := none, spawned := true, ctxStart := false }
      else
        match s.alarmType with
        | AlarmType.Banned =>
          { sqls := sqls, err := some (GoErr.withMessage ErrBanned q),
            spawned := false, ctxStart := false }
        | AlarmType.Alarm =>
          { sqls := sqls, err := none, spawned := false, ctxStart := true }
        | AlarmType.Normal =>
          if a.seenSqlLogLevel ≤ 0 then
            { sqls := sqls, err := none, spawned := false, ctxStart := true }
          else
            { sqls := sqls, err := none, spawned := false, ctxStart := false }
    | none =>
      { sqls := mapStore sqls q (tempSql q args now),
        err := none, spawned := true, ctxStart := false }

/-- Outcome of the wrapped Exec/Query call: `refused e` means the
pre-phase returned the error `e` and the inner driver operation was
never invoked; `ran e?` means the inner operation was invoked and
returned `e?` as its error. -/
inductive CallResult where
  | refused (e : GoErr)
  | ran (innerErr : Option GoErr)
deriving DecidableEq

/-- rewrite.go `Audit.ExecContext` / `Audit.QueryContext` pipeline
(their bodies are identical up to the result type): run `before`,
short-circuit on its error without calling `next`, otherwise call the
inner operation; `after` only logs and never errors. The inner
operation is abstracted by the error it would return. -/
def Audit.execContextRun (a : Audit) (sqls : List (String × Sql)) (wl : List String)
    (now j : Int) (q : String) (args : List String) (innerErr : Option GoErr) :
    List (String × Sql) × CallResult :=
  let b := a.before sqls wl now j q args
  match b.err with
  | some e => (b.sqls, CallResult.refused e)
  | none => (b.sqls, CallResult.ran innerErr)

/-- Outcome of the detached EXPLAIN worker body in `Audit.auditAsync`:
the EXPLAIN call succeeded with rows, returned an error, or the
goroutine panicked (caught by the deferred `recover`). -/
inductive ExplainOutcome where
  | ok (ers : List ExplainRow)
  | fail
  | panicked
deriving DecidableEq

/-- rewrite.go `Audit.auditAsync` worker effect on the verdict cache.
The worker returns nothing to its spawner: an EXPLAIN error or a panic
deletes the temporary record (and is logged), success replaces it with
the classified record stamped `Now()`. -/
def Audit.auditAsyncFinish (a : Audit) (sqls : List (String × Sql)) (q : String)
    (args : List String) (now : Int) (out : ExplainOutcome) : List (String × Sql) :=
  match out with
  | ExplainOutcome.panicked => mapDelete sqls q
  | ExplainOutcome.fail => mapDelete sqls q
  | ExplainOutcome.ok ers =>
    let res := a.DetectAlarmType ers
    mapStore sqls q
      { query := q, args := args, explain := ers, alarmType := res.1,
        reason := res.2, createdAt := now }

/-- Threshold classification shared by both branches of the row
classifier: banned above the banned threshold, alarm above the alarm
threshold, normal otherwise. -/
def thresholdVerdict (a : Audit) (rows : Int) : AlarmType :=
  if rows > a.bannedThreshold then AlarmType.Banned
  else if rows > a.alarmThreshold then AlarmType.Alarm
  else AlarmType.Normal

/-- Last element of the list satisfying `p`, if any. -/
def lastMatch? (p : String → Bool) : List String → Option String
  | [] => none
  | s :: rest =>
    match lastMatch? p rest with
    | some r => some r
    | none => if p s then some s else none

/-- Claim C2 as written: per-row classification in which the extra
triggers are consulted only when the type is not ALL/index. `res` is
the candidate result; the trigger reason may come from any matching
trigger. -/
def claimRowCheck (a : Audit) (er : ExplainRow) (res : AlarmType × String) : Bool :=
  match er.table, er.type with
  | none, _ => decide (res = (AlarmType.Normal, ""))
  | some _, none => decide (res = (AlarmType.Normal, ""))
  | some _, some t =>
    let rows : Int := er.rows.getD 0
    if t = "ALL" ∨ t = "index" then
      decide (res = (thresholdVerdict a rows, "explain:type:" ++ t))
    else
      match er.extra with
      | some x =>
        if a.explainExtraAlarmSubstrs.any (fun ss => strContains x ss) then
          a.explainExtraAlarmSubstrs.any (fun ss =>
            strContains x ss && decide (res = (thresholdVerdict a rows, "explain:extra:" ++ ss)))
        else decide (res = (AlarmType.Normal, ""))
      | none => decide (res = (AlarmType.Normal, ""))

/-- Claim C2 amended to match the code: the extra triggers are
consulted whenever the verdict after the type test is still normal —
also when the type is ALL/index but the thresholds left the row
normal — and the reason of the last matching trigger (in iteration
order) wins. -/
def amendedRowSpec (a : Audit) (er : ExplainRow) : AlarmType × String :=
  match er.table, er.type with
  | none, _ => (AlarmType.Normal, "")
  | some _, none => (AlarmType.Normal, "")
  | some _, some t =>
    let rows : Int := er.rows.getD 0
    let typeRes : AlarmType × String :=
      if t = "ALL" ∨ t = "index" then (thresholdVerdict a rows, "explain:type:" ++ t)
      else (AlarmType.Normal, "")
    if typeRes.1 = AlarmType.Normal then
      match er.extra with
      | some x =>
        match lastMatch? (fun ss => strContains x ss) a.explainExtraAlarmSubstrs with
        | some ss => (thresholdVerdict a rows, "explain:extra:" ++ ss)
        | none => typeRes
      | none => typeRes
    else typeRes

/-- Claim C6's description of the default predicate: strip the
leading whitespace only and test the first 6 characters
case-insensitively against the DML keywords. -/
def claimDefaultPred (query : String) : Bool :=
  let q := goTrimLeftL query.data
  if q.length < 6 then false
  else
    let p := q.take 6
    eqFoldL p "select".data || eqFoldL p "insert".data ||
    eqFoldL p "update".data || eqFoldL p "delete".data

/-- Program counter of one caller racing through the first-sight path
of `Audit.before` for a fixed query: it has not yet looked in the
verdict cache, its `sqls.Load` missed, or it returned (having spawned
the EXPLAIN task or not). -/
inductive CallerPC where
  | start
  | loadMissed
  | done (spawned : Bool)
deriving DecidableEq

/-- Whether a finished caller spawned the async EXPLAIN task. -/
def isSpawner : CallerPC → Bool
  | CallerPC.done true => true
  | _ => false

/-- Whether a caller has returned from the pre-phase. -/
def isDone : CallerPC → Bool
  | CallerPC.done _ => true
  | _ => false

/-- Shared state of the first-sight race on one query: the callers'
program counters and whether the verdict cache holds an entry for the
query. -/
structure RaceState where
  callers : List CallerPC
  entry : Bool
deriving DecidableEq

/-- One atomic step of caller `i` in the first-sight race through
`Audit.before`: the `sqls.Load` (a hit passes through, observing the
record, a miss advances), then the `sqls.LoadOrStore` (atomically
either observes the record stored by another caller and passes
through, or stores the temporary record and spawns the async EXPLAIN
task). -/
def raceStep (s : RaceState) (i : Nat) : RaceState :=
  match s.callers.get? i with
  | none => s
  | some CallerPC.start =>
    if s.entry then { s with callers := s.callers.set i (CallerPC.done false) }
    else { s with callers := s.callers.set i CallerPC.loadMissed }
  | some CallerPC.loadMissed =>
    if s.entry then { s with callers := s.callers.set i (CallerPC.done false) }
    else { callers := s.callers.set i (CallerPC.done true), entry := true }
  | some (CallerPC.done _) => s

/-- Run the first-sight race under an arbitrary interleaving: the
schedule lists which caller takes the next atomic step. -/
def raceRun (s : RaceState) (sched : List Nat) : RaceState :=
  sched.foldl raceStep s

/-- Number of callers that spawned the async EXPLAIN task. -/
def spawnCount (l : List CallerPC) : Nat := l.countP isSpawner

/-- Whether every caller has returned from the pre-phase. -/
def allDone (l : List CallerPC) : Bool := l.all isDone

/-- Optional capabilities probed by `Driver.Open` (log.go shim):
`driver.ConnBeginTx`, `isExecer` (`driver.ExecerContext` or legacy
`driver.Execer`), `isQueryer` (`driver.QueryerContext` or legacy
`driver.Queryer`), and `driver.SessionResetter`. -/
structure ConnCaps where
  connBeginTx : Bool
  execer : Bool
  queryer : Bool
  sessionResetter : Bool
deriving DecidableEq

/-- log.go `Driver.Open` capability dispatch: fail unless the wrapped
conn implements `ConnBeginTx`; return the wrapper type matching the
enumerated capability combinations, described by the capabilities the
returned conn exposes. -/
def openConn (c : ConnCaps) : Option ConnCaps :=
  if c.connBeginTx = false then none
  else if c.execer && c.queryer && c.sessionResetter then
    some { connBeginTx := true, execer := true, queryer := true, sessionResetter := true }
  else if c.execer && c.queryer then
    some { connBeginTx := true, execer := true, queryer := true, sessionResetter := false }
  else if c.execer then
    some { connBeginTx := true, execer := true, queryer := false, sessionResetter := false }
  else if c.queryer then
    some { connBeginTx := true, execer := false, queryer := true, sessionResetter := false }
  else
    some { connBeginTx := true, execer := false, queryer := false, sessionResetter := false }

/-- Errors of the shadow-table rewrite pipeline (rewrite.go
`ShadowTable.Rewrite`): parser failure, accept failure, restore
failure; each carries the original query text. -/
inductive RewriteError where
  | parseErr (sql : String)
  | acceptErr (sql : String)
  | restoreErr (sql : String)
deriving DecidableEq

/-- Modelled from the spec: the cached rewrite entry point
(`RewriteSql` with its `originalQuery → rewrittenQuery` cache) is not
among the sources under src/ — only a test that calls `RewriteSql`
and `Sqls` is — so it is modelled from spec §4.G: consult the cache
and return on a hit; otherwise run the single-shot parse / accept /
restore pipeline (abstracted as `rewriteOnce`, since the SQL parser
is an outside collaborator), store the pair only on success, and
leave the cache untouched on error. -/
def rewriteCached (rewriteOnce : String → Except RewriteError String)
    (cache : List (String × String)) (sql : String) :
    Except RewriteError String × List (String × String) :=
  match mapLoad cache sql with
  | some s => (Except.ok s, cache)
  | none =>
    match rewriteOnce sql with
    | Except.ok s => (Except.ok s, mapStore cache sql s)
    | Except.error e => (Except.error e, cache)

/-- mysql/mysql.go `TablesQuery`. -/
def TablesQuery : String :=
  "SELECT table_name, table_rows FROM INFORMATION_SCHEMA.TABLES WHERE TABLE_SCHEMA = ?;"

/-- Operation `sync.Map.Store` on the whitelist key set: keys are unique, a
re-store is a no-op for membership. -/
def wlStore (wl : List String) (q : String) : List String :=
  if q ∈ wl then wl else q :: wl

/-- Whitelist effect of rewrite.go `Audit.Provision`: store
`mysql.TablesQuery`, then every configured whitelist query, into the
whitelist map. -/
def Audit.provisionWhitelist (a : Audit) (wl : List String) : List String :=
  a.whitelistCfg.foldl wlStore (wlStore wl TablesQuery)

/-- rewrite.go `Audit.Whitelists`: range over the whitelist map and
collect every key. -/
def Whitelists (wl : List String) : List String := wl

/-- An audit as `Provision` leaves it under an empty configuration:
default thresholds 500 / 100000, seen-sql log level `Alarm`, the three
default extra triggers in map-seed order, and `DefaultShouldAudit`. -/
def auditD : Audit :=
  { alarmThreshold := 500, bannedThreshold := 100000, seenSqlLogLevel := 1,
    whitelistCfg := [], sqlCacheDuration := none,
    explainExtraAlarmSubstrs := ["Block Nested Loop", "temporary", "filesort"],
    shouldAuditFunc := DefaultShouldAudit }

/-- Variant of `auditD` with a 60-second `SqlCacheDuration`, for the TTL claim. -/
def auditTTL : Audit := { auditD with sqlCacheDuration := some 60000000000 }

/-- A full-scan EXPLAIN row (`type=ALL`) whose row count is below both
thresholds and whose extra column mentions a filesort. -/
def rowAllFilesort : ExplainRow :=
  { id := 1, selectType := "SIMPLE", table := some "t", partitions := none,
    type := some "ALL", possibleKeys := none, key := none, keyLen := none,
    ref := none, rows := some 0, filtered := none, extra := some "Using filesort" }

/-- A full-scan EXPLAIN row over 3 rows, as in the audit test. -/
def rowAll3 : ExplainRow :=
  { id := 1, selectType := "SIMPLE", table := some "data", partitions := none,
    type := some "ALL", possibleKeys := none, key := none, keyLen := none,
    ref := none, rows := some 3, filtered := some 100, extra := none }

/-- The banned query of the audit test. -/
def qBanned : String := "select * from data;"

/-- A cached banned record for `qBanned`. -/
def sqlBannedRec : Sql :=
  { query := qBanned, args := [], explain := [rowAll3], alarmType := AlarmType.Banned,
    reason := "explain:type:ALL", createdAt := 0 }

/-- A cached normal record for `qBanned`, for the non-banned branch. -/
def sqlNormalRec : Sql :=
  { query := qBanned, args := [], explain := [], alarmType := AlarmType.Normal,
    reason := "", createdAt := 0 }

/-- A one-entry rewrite oracle for the rewrite-cache witness. -/
def rewriteOnceW : String → Except RewriteError String := fun s =>
  if s = "select * from t where a = ?" then Except.ok "SELECT * FROM t_shadow WHERE a=?"
  else Except.error (RewriteError.parseErr s)

/-! Theorems. -/

theorem alarmType_toNat_inj : ∀ x y : AlarmType, x.toNat = y.toNat → x = y := by
  intro x y
  cases x <;> cases y <;> simp [AlarmType.toNat]

theorem foldl_alarmMax_le (vs : List AlarmType) :
    ∀ acc : AlarmType, acc.toNat ≤ (vs.foldl alarmMax acc).toNat := by
  induction vs with
  | nil => intro acc; exact Nat.le_refl _
  | cons v vs ih =>
    intro acc
    refine Nat.le_trans ?_ (ih (alarmMax acc v))
    unfold alarmMax
    by_cases h : acc.toNat < v.toNat
    · rw [if_pos h]; exact Nat.le_of_lt h
    · rw [if_neg h]

theorem detectFold_fst (a : Audit) (ers : List ExplainRow) :
    ∀ acc : AlarmType × String,
      (ers.foldl a.detectFoldStep acc).1
        = (ers.map (fun er => (a.detectAlarmType er).1)).foldl alarmMax acc.1 := by
  induction ers with
  | nil => intro acc; rfl
  | cons er ers ih =>
    intro acc
    simp only [List.foldl_cons, List.map_cons]
    rw [ih]
    congr 1
    by_cases h : acc.1.toNat < (a.detectAlarmType er).1.toNat
    · simp [Audit.detectFoldStep, alarmMax, h]
    · simp [Audit.detectFoldStep, alarmMax, h]

theorem detectFold_reason (a : Audit) (ers : List ExplainRow) :
    ∀ acc : AlarmType × String,
      ((ers.foldl a.detectFoldStep acc).1 = acc.1 → (ers.foldl a.detectFoldStep acc).2 = acc.2)
      ∧ ((ers.foldl a.detectFoldStep acc).1 ≠ acc.1 →
          ∃ er,
            ers.find?
              (fun er => decide ((a.detectAlarmType er).1 = (ers.foldl a.detectFoldStep acc).1))
              = some er
            ∧ (ers.foldl a.detectFoldStep acc).2 = (a.detectAlarmType er).2) := by
  induction ers with
  | nil =>
    intro acc
    refine ⟨fun _ => rfl, fun h => absurd rfl h⟩
  | cons er ers ih =>
    intro acc
    simp only [List.foldl_cons]
    by_cases hlt : acc.1.toNat < (a.detectAlarmType er).1.toNat
    · have hstep : a.detectFoldStep acc er = a.detectAlarmType er := by
        simp [Audit.detectFoldStep, hlt]
      simp only [hstep]
      have hge : (a.detectAlarmType er).1.toNat
          ≤ (ers.foldl a.detectFoldStep (a.detectAlarmType er)).1.toNat := by
        rw [detectFold_fst]
        exact foldl_alarmMax_le _ _
      constructor
      · intro h
        have : acc.1.toNat = (ers.foldl a.detectFoldStep (a.detectAlarmType er)).1.toNat :=
          congrArg AlarmType.toNat h.symm
        omega
      · intro _
        by_cases heq : (ers.foldl a.detectFoldStep (a.detectAlarmType er)).1
            = (a.detectAlarmType er).1
        · refine ⟨er, ?_, (ih (a.detectAlarmType er)).1 heq⟩
          apply List.find?_cons_of_pos
          simp [heq]
        · obtain ⟨er', hfind, hr2⟩ := (ih (a.detectAlarmType er)).2 heq
          refine ⟨er', ?_, hr2⟩
          rw [List.find?_cons_of_neg]
          · exact hfind
          · simp
            intro hcontra
            exact heq hcontra.symm
    · have hstep : a.detectFoldStep acc er = acc := by
        simp [Audit.detectFoldStep, hlt]
      simp only [hstep]
      have hge : acc.1.toNat ≤ (ers.foldl a.detectFoldStep acc).1.toNat := by
        rw [detectFold_fst]
        exact foldl_alarmMax_le _ _
      constructor
      · exact (ih acc).1
      · intro hne
        obtain ⟨er', hfind, hr2⟩ := (ih acc).2 hne
        refine ⟨er', ?_, hr2⟩
        rw [List.find?_cons_of_neg]
        · exact hfind
        · have hlt2 : acc.1.toNat < (ers.foldl a.detectFoldStep acc).1.toNat := by
            rcases Nat.lt_or_ge acc.1.toNat (ers.foldl a.detectFoldStep acc).1.toNat with h | h
            · exact h
            · exact absurd (alarmType_toNat_inj _ _ (Nat.le_antisymm hge h)).symm hne
          simp
          intro hcontra
          have := congrArg AlarmType.toNat hcontra
          omega

/-- C1. For every list of plan rows, `Audit.DetectAlarmType` returns
the maximum of the per-row verdicts in the `normal < alarm < banned`
order, together with the reason of the (first) row that set that
maximum, and the empty reason when every row is normal. -/
theorem audit_verdict_is_row_max (a : Audit) (ers : List ExplainRow) :
    a.DetectAlarmType ers = (maxRowVerdict a ers, reasonOfMaxRow a ers) := by
  unfold Audit.DetectAlarmType
  have hfst : (ers.foldl a.detectFoldStep (AlarmType.Normal, "")).1 = maxRowVerdict a ers := by
    rw [detectFold_fst]
    rfl
  have hB := detectFold_reason a ers (AlarmType.Normal, "")
  rw [Prod.ext_iff]
  refine ⟨hfst, ?_⟩
  unfold reasonOfMaxRow
  by_cases h : maxRowVerdict a ers = AlarmType.Normal
  · rw [if_pos h]
    exact hB.1 (hfst.trans h)
  · rw [if_neg h]
    have hne : (ers.foldl a.detectFoldStep (AlarmType.Normal, "")).1
        ≠ ((AlarmType.Normal, ""):AlarmType × String).1 := by
      rw [hfst]
      exact h
    obtain ⟨er, hfind, hr2⟩ := hB.2 hne
    simp only [hfst] at hfind
    rw [hfind]
    exact hr2

theorem extraFold_lastMatch (a : Audit) (rows : Int) (x : String) :
    ∀ (l : List String) (acc : AlarmType × String),
      (acc.1 = AlarmType.Normal ∨ acc.1 = thresholdVerdict a rows) →
      l.foldl (extraStep a rows x) acc
        = match lastMatch? (fun ss => strContains x ss) l with
          | some ss => (thresholdVerdict a rows, "explain:extra:" ++ ss)
          | none => acc := by
  intro l
  induction l with
  | nil => intro acc _; rfl
  | cons s rest ih =>
    intro acc hacc
    simp only [List.foldl_cons, lastMatch?]
    by_cases hp : strContains x s
    · have hstep : extraStep a rows x acc s
          = (thresholdVerdict a rows, "explain:extra:" ++ s) := by
        unfold extraStep thresholdVerdict
        rw [if_pos hp]
        by_cases hb : rows > a.bannedThreshold
        · rw [if_pos hb, if_pos hb]
        · rw [if_neg hb, if_neg hb]
          by_cases ha : rows > a.alarmThreshold
          · rw [if_pos ha, if_pos ha]
          · rw [if_neg ha, if_neg ha]
            rcases hacc with h | h
            · rw [h]
            · rw [h]
              unfold thresholdVerdict
              rw [if_neg hb, if_neg ha]
      rw [hstep, ih _ (Or.inr rfl)]
      cases hrest : lastMatch? (fun ss => strContains x ss) rest with
      | some r => simp [hrest]
      | none => simp [hrest, hp]
    · have hstep : extraStep a rows x acc s = acc := by
        simp [extraStep, hp]
      rw [hstep, ih _ hacc]
      cases hrest : lastMatch? (fun ss => strContains x ss) rest with
      | some r => simp [hrest]
      | none => simp [hrest, hp]

theorem typeRes_eq (a : Audit) (rows : Int) (t : String) :
    (if t = "ALL" ∨ t = "index" then
       if rows > a.bannedThreshold then (AlarmType.Banned, "explain:type:" ++ t)
       else if rows > a.alarmThreshold then (AlarmType.Alarm, "explain:type:" ++ t)
       else (AlarmType.Normal, "explain:type:" ++ t)
     else (AlarmType.Normal, ""))
    = (if t = "ALL" ∨ t = "index" then (thresholdVerdict a rows, "explain:type:" ++ t)
       else ((AlarmType.Normal, "") : AlarmType × String)) := by
  by_cases ht : t = "ALL" ∨ t = "index"
  · rw [if_pos ht, if_pos ht]
    unfold thresholdVerdict
    by_cases hb : rows > a.bannedThreshold
    · rw [if_pos hb, if_pos hb]
    · rw [if_neg hb, if_neg hb]
      by_cases ha : rows > a.alarmThreshold
      · rw [if_pos ha, if_pos ha]
      · rw [if_neg ha, if_neg ha]
  · rw [if_neg ht, if_neg ht]

theorem tail_eq (a : Audit) (rows : Int) (tr : AlarmType × String) (extra : Option String) :
    (if tr.1 = AlarmType.Normal then
       match extra with
       | some x => a.explainExtraAlarmSubstrs.foldl (extraStep a rows x) tr
       | none => tr
     else tr)
    = (if tr.1 = AlarmType.Normal then
        match extra with
        | some x =>
          match lastMatch? (fun ss => strContains x ss) a.explainExtraAlarmSubstrs with
          | some ss => (thresholdVerdict a rows, "explain:extra:" ++ ss)
          | none => tr
        | none => tr
       else tr) := by
  by_cases h : tr.1 = AlarmType.Normal
  · rw [if_pos h, if_pos h]
    cases extra with
    | none => rfl
    | some x => exact extraFold_lastMatch a rows x _ tr (Or.inl h)
  · rw [if_neg h, if_neg h]

/-- C2 counterexample. On a row with `type=ALL`, rows below both
thresholds and an extra column matching the `filesort` trigger, the
code returns reason `"explain:extra:filesort"` while the claim says
the candidate reason for an ALL-typed row is `"explain:type:ALL"`. -/
theorem claim_row_rule_fails_on_all_with_filesort :
    auditD.detectAlarmType rowAllFilesort = (AlarmType.Normal, "explain:extra:filesort")
    ∧ claimRowCheck auditD rowAllFilesort (auditD.detectAlarmType rowAllFilesort) = false := by
  constructor
  · rfl
  · rfl

/-- C2 amended. Per-row classification as the code implements it:
null table or type skips the row; on type ALL/index the thresholds
decide with reason `explain:type:<T>`; then — whenever the verdict is
still normal, also when the type was ALL/index — a non-null extra is
scanned against the triggers and the last matching trigger rewrites
the reason (and re-applies the thresholds). -/
theorem detect_row_amended (a : Audit) (er : ExplainRow) :
    a.detectAlarmType er = amendedRowSpec a er := by
  cases htbl : er.table with
  | none => simp [Audit.detectAlarmType, amendedRowSpec, htbl]
  | some tb =>
    cases hty : er.type with
    | none => simp [Audit.detectAlarmType, amendedRowSpec, htbl, hty]
    | some t =>
      have hrows : (match er.rows with | some r => r | none => 0) = er.rows.getD 0 := by
        cases er.rows <;> rfl
      simp only [Audit.detectAlarmType, amendedRowSpec, htbl, hty, hrows]
      rw [typeRes_eq]
      exact tail_eq a (er.rows.getD 0) _ er.extra

theorem mapLoad_mapDelete {α : Type} (m : List (String × α)) (k : String) :
    mapLoad (mapDelete m k) k = none := by
  induction m with
  | nil => rfl
  | cons kv m ih =>
    by_cases h : kv.1 = k
    · have hdel : mapDelete (kv :: m) k = mapDelete m k := by
        simp [mapDelete, List.filter_cons, h]
      rw [hdel]
      exact ih
    · have hdel : mapDelete (kv :: m) k = kv :: mapDelete m k := by
        simp [mapDelete, List.filter_cons, h]
      rw [hdel]
      simp only [mapLoad, if_neg h]
      exact ih

theorem mapLoad_mapStore_self {α : Type} (m : List (String × α)) (k : String) (v : α) :
    mapLoad (mapStore m k v) k = some v := by
  simp [mapStore, mapLoad]

/-- C3. `ErrBanned` is the only audit verdict surfacing as a call
error: with a fresh cached banned record the wrapped call refuses
with an error wrapping `ErrBanned` (classified invalid-argument)
without invoking the inner operation; a fresh alarm or normal record
lets the inner operation run; and any error the pre-phase ever
returns is the `ErrBanned` wrap. -/
theorem banned_only_verdict_error
    (a : Audit) (sqls : List (String × Sql)) (wl : List String) (now j : Int)
    (q : String) (args : List String) (innerErr : Option GoErr) (s : Sql)
    (hsa : a.ShouldAudit wl q = true)
    (hlk : mapLoad sqls q = some s)
    (hfresh : a.isStale s now j = false) :
    (s.alarmType = AlarmType.Banned →
      a.execContextRun sqls wl now j q args innerErr
        = (sqls, CallResult.refused (GoErr.withMessage ErrBanned q))
      ∧ goErrIs (GoErr.withMessage ErrBanned q) ErrBanned = true
      ∧ goErrIs (GoErr.withMessage ErrBanned q) InvalidArgument = true)
    ∧ (s.alarmType ≠ AlarmType.Banned →
      a.execContextRun sqls wl now j q args innerErr = (sqls, CallResult.ran innerErr))
    ∧ (∀ (sqls2 : List (String × Sql)) (wl2 : List String) (now2 j2 : Int)
        (q2 : String) (args2 : List String) (e : GoErr),
        (a.before sqls2 wl2 now2 j2 q2 args2).err = some e →
        e = GoErr.withMessage ErrBanned q2) := by
  refine ⟨?_, ?_, ?_⟩
  · intro hb
    have hbef : a.before sqls wl now j q args
        = { sqls := sqls, err := some (GoErr.withMessage ErrBanned q),
            spawned := false, ctxStart := false } := by
      simp [Audit.before, hsa, hlk, hfresh, hb]
    refine ⟨?_, ?_, ?_⟩
    · unfold Audit.execContextRun
      rw [hbef]
    · simp [goErrIs, ErrBanned, InvalidArgument]
    · simp [goErrIs, ErrBanned, InvalidArgument]
  · intro hnb
    cases ht : s.alarmType with
    | Banned => exact absurd ht hnb
    | Alarm => simp [Audit.execContextRun, Audit.before, hsa, hlk, hfresh, ht]
    | Normal =>
      by_cases hlv : a.seenSqlLogLevel ≤ 0
      · simp [Audit.execContextRun, Audit.before, hsa, hlk, hfresh, ht, hlv]
      · simp [Audit.execContextRun, Audit.before, hsa, hlk, hfresh, ht, hlv]
  · intro sqls2 wl2 now2 j2 q2 args2 e he
    unfold Audit.before at he
    split at he
    · simp at he
    · split at he
      · split at he
        · simp at he
        · split at he
          · simp at he
            exact he.symm
          · simp at he
          · split at he <;> simp at he
      · simp at he

theorem banned_only_verdict_error_witness :
    auditD.execContextRun [(qBanned, sqlBannedRec)] [] 5 3 qBanned [] none
      = ([(qBanned, sqlBannedRec)], CallResult.refused (GoErr.withMessage ErrBanned qBanned)) :=
  ((banned_only_verdict_error auditD [(qBanned, sqlBannedRec)] [] 5 3 qBanned [] none
      sqlBannedRec (by decide) (by decide) (by decide)).1 (by decide)).1

theorem countP_set_eq {α : Type} (p : α → Bool) :
    ∀ (l : List α) (i : Nat) (a b : α), l.get? i = some a → p a = p b →
      (l.set i b).countP p = l.countP p := by
  intro l
  induction l with
  | nil => intro i a b h _; simp at h
  | cons x l ih =>
    intro i a b h hpq
    cases i with
    | zero =>
      simp only [List.get?] at h
      injection h with h
      subst h
      simp [List.set, List.countP_cons, hpq]
    | succ i =>
      simp only [List.get?] at h
      simp only [List.set, List.countP_cons]
      rw [ih i a b h hpq]

theorem countP_set_incr {α : Type} (p : α → Bool) :
    ∀ (l : List α) (i : Nat) (a b : α), l.get? i = some a → p a = false → p b = true →
      (l.set i b).countP p = l.countP p + 1 := by
  intro l
  induction l with
  | nil => intro i a b h _ _; simp at h
  | cons x l ih =>
    intro i a b h hpa hpb
    cases i with
    | zero =>
      simp only [List.get?] at h
      injection h with h
      subst h
      simp [List.set, List.countP_cons, hpa, hpb]
    | succ i =>
      simp only [List.get?] at h
      simp only [List.set, List.countP_cons]
      rw [ih i a b h hpa hpb]
      omega

theorem raceStep_inv (s : RaceState) (i : Nat)
    (h1 : s.entry = true → spawnCount s.callers = 1)
    (h2 : s.entry = false → spawnCount s.callers = 0 ∧ ∀ pc ∈ s.callers, isDone pc = false) :
    ((raceStep s i).entry = true → spawnCount (raceStep s i).callers = 1)
    ∧ ((raceStep s i).entry = false →
        spawnCount (raceStep s i).callers = 0
        ∧ ∀ pc ∈ (raceStep s i).callers, isDone pc = false) := by
  cases hget : s.callers.get? i with
  | none =>
    simp only [raceStep, hget]
    exact ⟨h1, h2⟩
  | some pc =>
    cases pc with
    | start =>
      by_cases he : s.entry = true
      · simp only [raceStep, hget, if_pos he]
        constructor
        · intro _
          unfold spawnCount
          rw [countP_set_eq isSpawner _ i CallerPC.start (CallerPC.done false) hget rfl]
          exact h1 he
        · intro hfe
          rw [hfe] at he
          exact absurd he (by simp)
      · have hef : s.entry = false := by revert he; cases s.entry <;> simp
        simp only [raceStep, hget, if_neg he]
        constructor
        · intro htr
          rw [hef] at htr
          exact absurd htr (by simp)
        · intro _
          obtain ⟨hc, hm⟩ := h2 hef
          constructor
          · unfold spawnCount at *
            rw [countP_set_eq isSpawner _ i CallerPC.start CallerPC.loadMissed hget rfl]
            exact hc
          · intro pc hpc
            rcases List.mem_or_eq_of_mem_set hpc with hmem | hb
            · exact hm pc hmem
            · rw [hb]; rfl
    | loadMissed =>
      by_cases he : s.entry = true
      · simp only [raceStep, hget, if_pos he]
        constructor
        · intro _
          unfold spawnCount
          rw [countP_set_eq isSpawner _ i CallerPC.loadMissed (CallerPC.done false) hget rfl]
          exact h1 he
        · intro hfe
          rw [hfe] at he
          exact absurd he (by simp)
      · have hef : s.entry = false := by revert he; cases s.entry <;> simp
        simp only [raceStep, hget, if_neg he]
        constructor
        · intro _
          obtain ⟨hc, _⟩ := h2 hef
          unfold spawnCount at *
          rw [countP_set_incr isSpawner _ i CallerPC.loadMissed (CallerPC.done true) hget rfl rfl]
          rw [hc]
        · intro hfe
          exact absurd hfe (by simp)
    | done b =>
      simp only [raceStep, hget]
      exact ⟨h1, h2⟩

theorem raceRun_inv (sched : List Nat) :
    ∀ s : RaceState,
      (s.entry = true → spawnCount s.callers = 1) →
      (s.entry = false → spawnCount s.callers = 0 ∧ ∀ pc ∈ s.callers, isDone pc = false) →
      ((raceRun s sched).entry = true → spawnCount (raceRun s sched).callers = 1)
      ∧ ((raceRun s sched).entry = false →
          spawnCount (raceRun s sched).callers = 0
          ∧ ∀ pc ∈ (raceRun s sched).callers, isDone pc = false) := by
  induction sched with
  | nil => intro s h1 h2; exact ⟨h1, h2⟩
  | cons i sched ih =>
    intro s h1 h2
    have h := raceStep_inv s i h1 h2
    exact ih (raceStep s i) h.1 h.2

theorem raceStep_length (s : RaceState) (i : Nat) :
    (raceStep s i).callers.length = s.callers.length := by
  cases hget : s.callers.get? i with
  | none => simp only [raceStep, hget]
  | some pc =>
    cases pc with
    | start =>
      by_cases he : s.entry = true
      · simp only [raceStep, hget, if_pos he]
        simp
      · simp only [raceStep, hget, if_neg he]
        simp
    | loadMissed =>
      by_cases he : s.entry = true
      · simp only [raceStep, hget, if_pos he]
        simp
      · simp only [raceStep, hget, if_neg he]
        simp
    | done b => simp only [raceStep, hget]

theorem raceRun_length (sched : List Nat) :
    ∀ s : RaceState, (raceRun s sched).callers.length = s.callers.length := by
  induction sched with
  | nil => intro s; rfl
  | cons i sched ih =>
    intro s
    rw [show raceRun s (i :: sched) = raceRun (raceStep s i) sched from rfl, ih]
    exact raceStep_length s i

/-- C4. For any number of concurrent first-sight callers and any
interleaving of their cache accesses, once every caller has returned
exactly one of them spawned the async EXPLAIN task (the put-if-absent
winner); all others observed the placeholder record and passed
through. -/
theorem first_sight_exactly_one_explain (n : Nat) (sched : List Nat)
    (hn : 1 ≤ n)
    (hdone : allDone
      (raceRun { callers := List.replicate n CallerPC.start, entry := false } sched).callers
      = true) :
    spawnCount
      (raceRun { callers := List.replicate n CallerPC.start, entry := false } sched).callers
      = 1 := by
  have hinv := raceRun_inv sched
    { callers := List.replicate n CallerPC.start, entry := false }
    (by intro h; simp at h)
    (by
      intro _
      constructor
      · rw [spawnCount, List.countP_eq_zero]
        intro pc hpc
        rw [List.eq_of_mem_replicate hpc]
        simp [isSpawner]
      · intro pc hpc
        rw [List.eq_of_mem_replicate hpc]
        rfl)
  cases hentry : (raceRun { callers := List.replicate n CallerPC.start, entry := false }
      sched).entry with
  | false =>
    exfalso
    obtain ⟨_, hnd⟩ := hinv.2 hentry
    have hlen : (raceRun { callers := List.replicate n CallerPC.start, entry := false }
        sched).callers.length = n := by
      rw [raceRun_length]
      simp
    have hne : (raceRun { callers := List.replicate n CallerPC.start, entry := false }
        sched).callers ≠ [] := by
      intro hnil
      rw [hnil] at hlen
      simp at hlen
      omega
    obtain ⟨pc, hpc⟩ := List.exists_mem_of_ne_nil _ hne
    have hd := (List.all_eq_true.mp hdone) pc hpc
    rw [hnd pc hpc] at hd
    exact absurd hd (by simp)
  | true => exact hinv.1 hentry

theorem first_sight_exactly_one_explain_witness :
    allDone (raceRun { callers := List.replicate 3 CallerPC.start, entry := false }
      [0, 1, 2, 0, 1, 2]).callers = true
    ∧ spawnCount (raceRun { callers := List.replicate 3 CallerPC.start, entry := false }
      [0, 1, 2, 0, 1, 2]).callers = 1 :=
  ⟨by decide, first_sight_exactly_one_explain 3 [0, 1, 2, 0, 1, 2] (by decide) (by decide)⟩

/-- C5. When the async EXPLAIN worker fails (EXPLAIN error) or
panics, the temporary cache entry for the query is deleted — the
worker has no channel back to any caller, so nothing propagates — and
a later audited call for the same query is a first sight again: it
spawns a fresh EXPLAIN and returns no error. -/
theorem explain_failure_cleans_cache
    (a : Audit) (sqls : List (String × Sql)) (q : String) (args : List String) (now : Int)
    (out : ExplainOutcome)
    (hfail : out = ExplainOutcome.fail ∨ out = ExplainOutcome.panicked) :
    mapLoad (a.auditAsyncFinish sqls q args now out) q = none
    ∧ ∀ (wl : List String) (now2 j2 : Int) (args2 : List String),
        a.ShouldAudit wl q = true →
        (a.before (a.auditAsyncFinish sqls q args now out) wl now2 j2 q args2).spawned = true
        ∧ (a.before (a.auditAsyncFinish sqls q args now out) wl now2 j2 q args2).err = none := by
  have hdel : a.auditAsyncFinish sqls q args now out = mapDelete sqls q := by
    rcases hfail with h | h <;> rw [h] <;> rfl
  rw [hdel]
  have hnone := mapLoad_mapDelete sqls q
  refine ⟨hnone, ?_⟩
  intro wl now2 j2 args2 hsa
  have hbef : a.before (mapDelete sqls q) wl now2 j2 q args2
      = { sqls := mapStore (mapDelete sqls q) q (tempSql q args2 now2),
          err := none, spawned := true, ctxStart := false } := by
    simp [Audit.before, hsa, hnone]
  rw [hbef]
  exact ⟨rfl, rfl⟩

theorem explain_failure_cleans_cache_witness :
    mapLoad (auditD.auditAsyncFinish [(qBanned, tempSql qBanned [] 0)] qBanned [] 0
      ExplainOutcome.fail) qBanned = none
    ∧ (auditD.before (auditD.auditAsyncFinish [(qBanned, tempSql qBanned [] 0)] qBanned [] 0
      ExplainOutcome.fail) [] 7 0 qBanned []).spawned = true :=
  ⟨(explain_failure_cleans_cache auditD [(qBanned, tempSql qBanned [] 0)] qBanned [] 0
      ExplainOutcome.fail (Or.inl rfl)).1,
   ((explain_failure_cleans_cache auditD [(qBanned, tempSql qBanned [] 0)] qBanned [] 0
      ExplainOutcome.fail (Or.inl rfl)).2 [] 7 0 [] (by decide)).1⟩

theorem mem_takeWhile {α : Type} (p : α → Bool) :
    ∀ (l : List α) (a : α), a ∈ l.takeWhile p → p a = true := by
  intro l
  induction l with
  | nil => intro a h; simp [List.takeWhile] at h
  | cons x l ih =>
    intro a h
    rw [List.takeWhile_cons] at h
    by_cases hp : p x = true
    · rw [if_pos hp] at h
      rcases List.mem_cons.mp h with rfl | hmem
      · exact hp
      · exact ih a hmem
    · rw [if_neg hp] at h
      simp at h

theorem trimRight_decomp (l : List Char) :
    ∃ w, goTrimRightL l ++ w = l ∧ ∀ c ∈ w, goIsSpace c = true := by
  refine ⟨(l.reverse.takeWhile goIsSpace).reverse, ?_, ?_⟩
  · unfold goTrimRightL
    rw [← List.reverse_append, List.takeWhile_append_dropWhile, List.reverse_reverse]
  · intro c hc
    rw [List.mem_reverse] at hc
    exact mem_takeWhile goIsSpace _ c hc

theorem wsLetterClash :
    ∀ c ∈ goSpaceChars,
      ∀ kw ∈ ["select".data, "insert".data, "update".data, "delete".data],
        ∀ i, i < 6 → ¬ (kw.map Char.toLower)[i]? = some c.toLower := by
  decide

theorem defaultShouldAudit_eq_claimPred (s : String) :
    DefaultShouldAudit s = claimDefaultPred s := by
  unfold DefaultShouldAudit claimDefaultPred goTrimSpaceL
  obtain ⟨w, hcat, hws⟩ := trimRight_decomp (goTrimLeftL s.data)
  by_cases h6 : 6 ≤ (goTrimRightL (goTrimLeftL s.data)).length
  · have ht6 : 6 ≤ (goTrimLeftL s.data).length := by
      rw [← hcat, List.length_append]
      omega
    rw [if_neg (by omega), if_neg (by omega)]
    have htake : (goTrimRightL (goTrimLeftL s.data)).take 6 = (goTrimLeftL s.data).take 6 := by
      conv_rhs => rw [← hcat]
      rw [List.take_append_eq_append_take]
      have hz : 6 - (goTrimRightL (goTrimLeftL s.data)).length = 0 := by omega
      rw [hz]
      simp
    rw [htake]
  · rw [if_pos (by omega)]
    by_cases ht6 : (goTrimLeftL s.data).length < 6
    · rw [if_pos ht6]
    · rw [if_neg ht6]
      have hlen := congrArg List.length hcat
      rw [List.length_append] at hlen
      have hwpos : 0 < w.length := by omega
      obtain ⟨c0, w', rfl⟩ : ∃ c0 w', w = c0 :: w' := by
        cases w with
        | nil => simp at hwpos
        | cons c0 w' => exact ⟨c0, w', rfl⟩
      have hc0 : goIsSpace c0 = true := hws c0 (by simp)
      have hc0mem : c0 ∈ goSpaceChars := of_decide_eq_true hc0
      have hidx : (goTrimRightL (goTrimLeftL s.data)).length < 6 := by omega
      have hget0 : (goTrimRightL (goTrimLeftL s.data) ++ c0 :: w')[
          (goTrimRightL (goTrimLeftL s.data)).length]? = some c0 := by
        rw [List.getElem?_append_right (Nat.le_refl _)]
        simp
      rw [hcat] at hget0
      have hget : ((goTrimLeftL s.data).take 6)[
          (goTrimRightL (goTrimLeftL s.data)).length]? = some c0 := by
        rw [List.getElem?_take_of_lt hidx]
        exact hget0
      have hfold : ∀ kw ∈ ["select".data, "insert".data, "update".data, "delete".data],
          eqFoldL ((goTrimLeftL s.data).take 6) kw = false := by
        intro kw hkw
        cases heq : eqFoldL ((goTrimLeftL s.data).take 6) kw with
        | false => rfl
        | true =>
          exfalso
          have hmapeq : ((goTrimLeftL s.data).take 6).map Char.toLower
              = kw.map Char.toLower := of_decide_eq_true heq
          have hpt := congrArg
            (fun l => l[(goTrimRightL (goTrimLeftL s.data)).length]?) hmapeq
          simp only at hpt
          rw [List.getElem?_map, hget] at hpt
          simp only [Option.map_some'] at hpt
          exact wsLetterClash c0 hc0mem kw hkw _ hidx hpt.symm
      have h1 := hfold "select".data (by simp)
      have h2 := hfold "insert".data (by simp)
      have h3 := hfold "update".data (by simp)
      have h4 := hfold "delete".data (by simp)
      simp only [h1, h2, h3, h4]
      rfl

/-- C6. A query the auditor should not audit — whitelisted or
rejected by the injected predicate — passes the pre-phase untouched:
no error, no cache write, no EXPLAIN scheduled, no context timestamp;
and the default predicate behaves exactly as the claim describes
(strip leading whitespace, test the first 6 characters
case-insensitively against the DML keywords). -/
theorem whitelist_bypass
    (a : Audit) (sqls : List (String × Sql)) (wl : List String) (now j : Int)
    (q : String) (args : List String)
    (h : q ∈ wl ∨ a.shouldAuditFunc q = false) :
    a.ShouldAudit wl q = false
    ∧ a.before sqls wl now j q args
        = { sqls := sqls, err := none, spawned := false, ctxStart := false }
    ∧ ∀ s : String, DefaultShouldAudit s = claimDefaultPred s := by
  have hsa : a.ShouldAudit wl q = false := by
    unfold Audit.ShouldAudit
    rcases h with h | h
    · rw [if_pos h]
    · by_cases hw : q ∈ wl
      · rw [if_pos hw]
      · rw [if_neg hw]
        exact h
  refine ⟨hsa, ?_, fun s => defaultShouldAudit_eq_claimPred s⟩
  simp [Audit.before, hsa]

theorem whitelist_bypass_witness :
    auditD.before [] [] 0 0 "CREATE TABLE t1 (id INTEGER, text VARCHAR(16))" []
      = { sqls := [], err := none, spawned := false, ctxStart := false } :=
  ((whitelist_bypass auditD [] [] 0 0 "CREATE TABLE t1 (id INTEGER, text VARCHAR(16))" []
    (Or.inr (by decide))).2).1

/-- C7 counterexample. A wrapped conn that implements Execer and
SessionResetter but not Queryer is returned as a plain
`ExecerContext`, which does not implement SessionResetter — the
claimed capability iff fails for SessionResetter. -/
theorem openConn_drops_sessionResetter :
    openConn { connBeginTx := true, execer := true, queryer := false, sessionResetter := true }
      = some { connBeginTx := true, execer := true, queryer := false, sessionResetter := false }
    ∧ ({ connBeginTx := true, execer := true, queryer := false, sessionResetter := true }
        : ConnCaps).sessionResetter = true :=
  ⟨rfl, rfl⟩

/-- C7 amended. `Driver.Open` preserves the Execer and Queryer
capabilities exactly, but exposes SessionResetter only when the
wrapped conn implements Execer, Queryer and SessionResetter all
three; it fails (returns none) when the conn lacks ConnBeginTx. -/
theorem openConn_capabilities (c : ConnCaps) :
    openConn c
      = if c.connBeginTx then
          some { connBeginTx := true, execer := c.execer, queryer := c.queryer,
                 sessionResetter := c.execer && c.queryer && c.sessionResetter }
        else none := by
  rcases c with ⟨bt, e, qy, sr⟩
  cases bt <;> cases e <;> cases qy <;> cases sr <;> rfl

/-- C8. For any jitter draw `rand.Intn(30)` (so `0 ≤ j < 30`
seconds): a cached record whose age exceeds `sqlCacheDuration` plus
that drawn jitter is deleted by the pre-phase and the query is
treated as first sight — the temporary record replaces the expired
one, a new EXPLAIN is spawned and no error is returned; consequently,
since every draw is below 30 seconds, a record older than `d + 30s`
always schedules a new EXPLAIN. -/
theorem ttl_expiry_schedules_explain
    (a : Audit) (sqls : List (String × Sql)) (wl : List String)
    (now j d : Int) (q : String) (args : List String) (s : Sql)
    (hsa : a.ShouldAudit wl q = true)
    (hlk : mapLoad sqls q = some s)
    (hdur : a.sqlCacheDuration = some d)
    (hj0 : 0 ≤ j) (hj : j < 30) :
    (now - s.createdAt > d + j * nanosPerSecond →
      a.before sqls wl now j q args
        = { sqls := mapStore (mapDelete sqls q) q (tempSql q args now),
            err := none, spawned := true, ctxStart := false }
      ∧ mapLoad (a.before sqls wl now j q args).sqls q = some (tempSql q args now))
    ∧ (now - s.createdAt > d + 30 * nanosPerSecond →
      a.before sqls wl now j q args
        = { sqls := mapStore (mapDelete sqls q) q (tempSql q args now),
            err := none, spawned := true, ctxStart := false }
      ∧ mapLoad (a.before sqls wl now j q args).sqls q = some (tempSql q args now)) := by
  have main : now - s.createdAt > d + j * nanosPerSecond →
      a.before sqls wl now j q args
        = { sqls := mapStore (mapDelete sqls q) q (tempSql q args now),
            err := none, spawned := true, ctxStart := false }
      ∧ mapLoad (a.before sqls wl now j q args).sqls q = some (tempSql q args now) := by
    intro hage
    have hstale : a.isStale s now j = true := by
      unfold Audit.isStale
      rw [hdur, decide_eq_true_eq]
      exact hage
    have hbef : a.before sqls wl now j q args
        = { sqls := mapStore (mapDelete sqls q) q (tempSql q args now),
            err := none, spawned := true, ctxStart := false } := by
      simp [Audit.before, hsa, hlk, hstale]
    refine ⟨hbef, ?_⟩
    rw [hbef]
    exact mapLoad_mapStore_self _ _ _
  refine ⟨main, ?_⟩
  intro hage30
  refine main ?_
  simp only [nanosPerSecond] at hage30 ⊢
  omega

theorem ttl_expiry_schedules_explain_witness :
    (auditTTL.before [(qBanned, sqlBannedRec)] [] 61000000000 0 qBanned []).spawned
      = true := by
  rw [((ttl_expiry_schedules_explain auditTTL [(qBanned, sqlBannedRec)] [] 61000000000 0
    60000000000 qBanned [] sqlBannedRec (by decide) (by decide) (by decide) (by decide)
    (by decide)).1 (by decide)).1]

/-- C9 (spec-modelled). The cached rewrite returns the cached query
on a hit without touching the cache; a successful rewrite stores the
original-to-rewritten pair (so a later hit returns it); a parse,
accept or restore error leaves the cache unwritten. -/
theorem rewrite_cache_behaviour
    (rewriteOnce : String → Except RewriteError String)
    (cache : List (String × String)) (sql : String) :
    (∀ s, mapLoad cache sql = some s →
      rewriteCached rewriteOnce cache sql = (Except.ok s, cache))
    ∧ (∀ s, mapLoad cache sql = none → rewriteOnce sql = Except.ok s →
      rewriteCached rewriteOnce cache sql = (Except.ok s, mapStore cache sql s)
      ∧ mapLoad (mapStore cache sql s) sql = some s)
    ∧ (∀ e, mapLoad cache sql = none → rewriteOnce sql = Except.error e →
      rewriteCached rewriteOnce cache sql = (Except.error e, cache)) := by
  refine ⟨?_, ?_, ?_⟩
  · intro s h
    simp [rewriteCached, h]
  · intro s h hro
    exact ⟨by simp [rewriteCached, h, hro], mapLoad_mapStore_self _ _ _⟩
  · intro e h hro
    simp [rewriteCached, h, hro]

theorem rewrite_cache_behaviour_witness :
    rewriteCached rewriteOnceW [] "select * from t where a = ?"
      = (Except.ok "SELECT * FROM t_shadow WHERE a=?",
         [("select * from t where a = ?", "SELECT * FROM t_shadow WHERE a=?")]) :=
  (((rewrite_cache_behaviour rewriteOnceW [] "select * from t where a = ?").2).1
    "SELECT * FROM t_shadow WHERE a=?" (by rfl) (by rfl)).1

theorem mem_wlStore (wl : List String) (q x : String) (h : x ∈ wl) : x ∈ wlStore wl q := by
  unfold wlStore
  by_cases hq : q ∈ wl
  · rw [if_pos hq]
    exact h
  · rw [if_neg hq]
    exact List.mem_cons_of_mem q h

theorem mem_wlStore_self (wl : List String) (q : String) : q ∈ wlStore wl q := by
  unfold wlStore
  by_cases hq : q ∈ wl
  · rw [if_pos hq]
    exact hq
  · rw [if_neg hq]
    exact List.mem_cons_self q wl

theorem mem_foldl_wlStore (ks : List String) :
    ∀ (wl : List String) (x : String), x ∈ wl → x ∈ ks.foldl wlStore wl := by
  induction ks with
  | nil => intro wl x h; exact h
  | cons k ks ih => intro wl x h; exact ih (wlStore wl k) x (mem_wlStore wl k x h)

/-- C10. After `Provision`, whatever the configured whitelist (empty
included), the whitelist map contains the internal
INFORMATION_SCHEMA tables query, `ShouldAudit` refuses to audit it,
and `Whitelists` reports it. -/
theorem provision_whitelists_tables_query (a : Audit) (wl : List String) :
    TablesQuery ∈ a.provisionWhitelist wl
    ∧ a.ShouldAudit (a.provisionWhitelist wl) TablesQuery = false
    ∧ TablesQuery ∈ Whitelists (a.provisionWhitelist wl) := by
  have hmem : TablesQuery ∈ a.provisionWhitelist wl := by
    unfold Audit.provisionWhitelist
    exact mem_foldl_wlStore _ _ _ (mem_wlStore_self wl TablesQuery)
  refine ⟨hmem, ?_, hmem⟩
  unfold Audit.ShouldAudit
  rw [if_pos hmem]

end Sqlkit


